import Mathlib

set_option maxRecDepth 8000

/-!
Verification of the FinBERT worker (`src/worker/finbert_worker.py`).

The worker scans a DynamoDB table for PENDING_SENTIMENT jobs, fetches the
referenced raw S3 JSONL(.gz) object (with a fallback listing-based resolver),
parses it line by line, scores the texts in batches, writes a curated output
object at a mirrored path, and transitions the job to DONE or FAILED.

The embedding below models the worker's pure logic directly and threads the
external services (S3, DynamoDB, gzip, the scoring model) through an explicit
environment of oracles, so that every network call's success or failure is an
explicit case.  The curated object bodies are kept as the enriched record
lists themselves (the JSON serialization of the output body is not needed by
any property).  JSON numbers are modelled as integers; fractional literals
are not modelled (no property depends on them).
-/

namespace NlpTrading

/-- JSON values as produced by `json.loads` in the worker. -/
inductive JValue where
  | null
  | bool (b : Bool)
  | num (n : Int)
  | str (s : String)
  | arr (elems : List JValue)
  | obj (fields : List (String × JValue))

/-- Whitespace skipping used by the JSON parser. -/
def skipWs : List Char → List Char
  | [] => []
  | c :: cs => if c = ' ' ∨ c = '\t' ∨ c = '\n' ∨ c = '\r' then skipWs cs else c :: cs

/-- Hexadecimal digit value, for JSON `\uXXXX` escapes. -/
def hexVal (c : Char) : Option Nat :=
  if '0' ≤ c ∧ c ≤ '9' then some (c.toNat - '0'.toNat)
  else if 'a' ≤ c ∧ c ≤ 'f' then some (c.toNat - 'a'.toNat + 10)
  else if 'A' ≤ c ∧ c ≤ 'F' then some (c.toNat - 'A'.toNat + 10)
  else none

/-- Body of a JSON string literal (after the opening quote).  Returns the
decoded string and the remaining input.  Control characters must be escaped,
as in Python's strict `json.loads`. -/
def parseStrBody : List Char → List Char → Option (String × List Char)
  | [], _ => none
  | '"' :: rest, acc => some (String.mk acc.reverse, rest)
  | '\\' :: '"' :: rest, acc => parseStrBody rest ('"' :: acc)
  | '\\' :: '\\' :: rest, acc => parseStrBody rest ('\\' :: acc)
  | '\\' :: '/' :: rest, acc => parseStrBody rest ('/' :: acc)
  | '\\' :: 'n' :: rest, acc => parseStrBody rest ('\n' :: acc)
  | '\\' :: 't' :: rest, acc => parseStrBody rest ('\t' :: acc)
  | '\\' :: 'r' :: rest, acc => parseStrBody rest ('\r' :: acc)
  | '\\' :: 'b' :: rest, acc => parseStrBody rest (Char.ofNat 8 :: acc)
  | '\\' :: 'f' :: rest, acc => parseStrBody rest (Char.ofNat 12 :: acc)
  | '\\' :: 'u' :: h1 :: h2 :: h3 :: h4 :: rest, acc =>
    match hexVal h1, hexVal h2, hexVal h3, hexVal h4 with
    | some a, some b, some c, some d =>
      parseStrBody rest (Char.ofNat (a * 4096 + b * 256 + c * 16 + d) :: acc)
    | _, _, _, _ => none
  | '\\' :: _, _ => none
  | c :: rest, acc => if c.toNat < 32 then none else parseStrBody rest (c :: acc)

/-- Longest digit run at the head of the input. -/
def takeDigits : List Char → List Char × List Char
  | [] => ([], [])
  | c :: cs =>
    if c.isDigit then
      let p := takeDigits cs
      (c :: p.1, p.2)
    else ([], c :: cs)

/-- Digit run to a natural number. -/
def digitsToNat (ds : List Char) : Nat :=
  ds.foldl (fun n d => n * 10 + (d.toNat - 48)) 0

/-- Integer part of a JSON number: `0`, or a nonzero leading digit followed
by more digits (JSON forbids other leading zeros). -/
def parseIntPart : List Char → Option (Nat × List Char)
  | '0' :: rest => some (0, rest)
  | c :: cs =>
    if c.isDigit then
      let p := takeDigits (c :: cs)
      some (digitsToNat p.1, p.2)
    else none
  | [] => none

/-- JSON number parse.  Fractional and exponent forms are not modelled: the
parse fails on them, and no claim exercises them. -/
def parseNum : List Char → Option (JValue × List Char)
  | '-' :: cs =>
    match parseIntPart cs with
    | some (n, rest) =>
      match rest with
      | '.' :: _ => none
      | 'e' :: _ => none
      | 'E' :: _ => none
      | _ => some (.num (-(n : Int)), rest)
    | none => none
  | cs =>
    match parseIntPart cs with
    | some (n, rest) =>
      match rest with
      | '.' :: _ => none
      | 'e' :: _ => none
      | 'E' :: _ => none
      | _ => some (.num (n : Int), rest)
    | none => none

/-- Parser mode: a single value, the items of an array (accumulated), or the
members of an object (accumulated).  A single fuel-indexed function keeps the
recursion structural so that concrete inputs evaluate by `rfl`/`decide`. -/
inductive PMode where
  | value
  | arrItems (acc : List JValue)
  | objItems (acc : List (String × JValue))

/-- Fuel-indexed JSON parser core. -/
def parseP : Nat → PMode → List Char → Option (JValue × List Char)
  | 0, _, _ => none
  | fuel + 1, .value, cs =>
    match skipWs cs with
    | 'n' :: 'u' :: 'l' :: 'l' :: rest => some (.null, rest)
    | 't' :: 'r' :: 'u' :: 'e' :: rest => some (.bool true, rest)
    | 'f' :: 'a' :: 'l' :: 's' :: 'e' :: rest => some (.bool false, rest)
    | '"' :: rest =>
      match parseStrBody rest [] with
      | some (s, r) => some (.str s, r)
      | none => none
    | '[' :: rest =>
      match skipWs rest with
      | ']' :: rest2 => some (.arr [], rest2)
      | rest2 => parseP fuel (.arrItems []) rest2
    | '\x7b' :: rest =>
      match skipWs rest with
      | '\x7d' :: rest2 => some (.obj [], rest2)
      | rest2 => parseP fuel (.objItems []) rest2
    | cs2 => parseNum cs2
  | fuel + 1, .arrItems acc, cs =>
    match parseP fuel .value cs with
    | none => none
    | some (v, rest) =>
      match skipWs rest with
      | ',' :: rest2 => parseP fuel (.arrItems (v :: acc)) rest2
      | ']' :: rest2 => some (.arr (v :: acc).reverse, rest2)
      | _ => none
  | fuel + 1, .objItems acc, cs =>
    match skipWs cs with
    | '"' :: rest =>
      match parseStrBody rest [] with
      | none => none
      | some (k, rest2) =>
        match skipWs rest2 with
        | ':' :: rest3 =>
          match parseP fuel .value rest3 with
          | none => none
          | some (v, rest4) =>
            match skipWs rest4 with
            | ',' :: rest5 => parseP fuel (.objItems ((k, v) :: acc)) rest5
            | '\x7d' :: rest5 => some (.obj ((k, v) :: acc).reverse, rest5)
            | _ => none
        | _ => none
    | _ => none

/-- Model of Python `json.loads`: parse one value, then require only
whitespace to remain. -/
def json_loads (s : String) : Option JValue :=
  match parseP (2 * s.toList.length + 2) .value s.toList with
  | some (v, rest) => if skipWs rest = [] then some v else none
  | none => none

/-- Python truthiness of a JSON value (`if msg:`, `x or y`). -/
def JValue.truthy : JValue → Bool
  | .null => false
  | .bool b => b
  | .num n => n != 0
  | .str s => s != ""
  | .arr es => !es.isEmpty
  | .obj fs => !fs.isEmpty

/-- Python type name of a JSON value, as it appears in an AttributeError. -/
def JValue.pyTypeName : JValue → String
  | .null => "NoneType"
  | .bool _ => "bool"
  | .num _ => "int"
  | .str _ => "str"
  | .arr _ => "list"
  | .obj _ => "dict"

/-- Python `dict.get(k, dflt)`; with duplicate keys `json.loads` keeps the
last occurrence, so lookup scans from the end. -/
def dictGet (fields : List (String × JValue)) (k : String) (dflt : JValue) : JValue :=
  match fields.reverse.find? (fun p => p.1 == k) with
  | some p => p.2
  | none => dflt

/-- A boto3 `ClientError`, identified by its error code and message. -/
structure ClientErr where
  code : String
  message : String
deriving DecidableEq

/-- The Python exceptions that can escape a step of the worker. -/
inductive PyErr where
  | client (e : ClientErr)
  | attrError (typeName : String)
  | indexError
  | valueError (msg : String)
deriving DecidableEq

/-- Model of Python `str(e)` on the exceptions above. -/
def pyStr : PyErr → String
  | .client e => "An error occurred (" ++ e.code ++ ") when calling an operation: " ++ e.message
  | .attrError t => "'" ++ t ++ "' object has no attribute 'get'"
  | .indexError => "list index out of range"
  | .valueError m => m

/-- Python `r.get(k, dflt)`: dictionary lookup, or an AttributeError on any
non-dict value. -/
def pyGet (r : JValue) (k : String) (dflt : JValue) : Except PyErr JValue :=
  match r with
  | .obj fields => .ok (dictGet fields k dflt)
  | v => .error (.attrError v.pyTypeName)

/-- Python character slicing `s[:n]`. -/
def pyStrTake (s : String) (n : Nat) : String := String.mk (s.toList.take n)

/-- Python character slicing `s[:-n]`. -/
def pyDropRight (s : String) (n : Nat) : String :=
  String.mk (s.toList.take (s.toList.length - n))

/-- Python `str.strip()` whitespace set. -/
def isPySpace (c : Char) : Bool :=
  c = ' ' ∨ c = '\t' ∨ c = '\n' ∨ c = '\r' ∨ c = Char.ofNat 11 ∨ c = Char.ofNat 12

/-- Python `s.strip()`. -/
def pyTrim (s : String) : String :=
  String.mk (((s.toList.dropWhile isPySpace).reverse.dropWhile isPySpace).reverse)

/-- Split a character list on a separator character; the result is always
nonempty (`"".split(c)` is `[""]`). -/
def splitChar (sep : Char) : List Char → List (List Char)
  | [] => [[]]
  | c :: cs =>
    match splitChar sep cs with
    | [] => [[c]]
    | r :: rs => if c = sep then [] :: r :: rs else (c :: r) :: rs

/-- Python `s.split(sep)` for a single-character separator (the worker only
splits on `"/"` and on line boundaries). -/
def pySplit (s : String) (sep : Char) : List String :=
  (splitChar sep s.toList).map String.mk

/-- Python `s.endswith(suffix)`. -/
def pyEndsWith (s suffix : String) : Bool :=
  suffix.toList.reverse.isPrefixOf s.toList.reverse

/-- Lexicographic comparison of character lists by code point, as Python
compares strings. -/
def lexLe : List Char → List Char → Bool
  | [], _ => true
  | _ :: _, [] => false
  | a :: as, b :: bs =>
    if a.toNat < b.toNat then true
    else if b.toNat < a.toNat then false
    else lexLe as bs

/-- Python `a <= b` on strings. -/
def pyLe (a b : String) : Bool := lexLe a.toList b.toList

/-- Insert into a sorted list (by `pyLe`). -/
def insSorted (x : String) : List String → List String
  | [] => [x]
  | y :: ys => if pyLe x y then x :: y :: ys else y :: insSorted x ys

/-- Python `sorted(l)` on strings.  A sorted sequence of a given multiset of
strings is unique, so any correct sort models `sorted`; this one is an
insertion sort, chosen because it is structurally recursive. -/
def pySorted (l : List String) : List String := l.foldr insSorted []

/-- Python `key.split("/")[-1]` (the list is never empty). -/
def lastSeg (key : String) : String := (pySplit key '/').getLastD ""

/-- Python `sep.join(xs)`. -/
def pyJoin (sep : String) : List String → String
  | [] => ""
  | [x] => x
  | x :: xs => x ++ sep ++ pyJoin sep xs

/-- One JobState item: `pk`, `sk` (full raw S3 key), `bucket`, `status`,
`created_ts`, and the optional `error_message` written on failures. -/
structure JobItem where
  pk : String
  sk : String
  bucket : String
  status : String
  created_ts : Nat
  error_message : Option String
deriving DecidableEq

/-- One classification as returned by the scoring call:
`{"label": ..., "probs": ...}`.  The numeric vector is abstract to the
dispatcher (its numeric properties are treated separately). -/
structure Sentiment where
  label : String
  probs : List Rat
deriving DecidableEq

/-- One enriched output record:
`{"symbol": ..., "headline": ..., "sentiment_label": ...}`. -/
structure Enriched where
  symbol : JValue
  headline : JValue
  sentiment_label : Sentiment

/-- Observable worker state: the JobState table, the curated objects written
so far (bucket, key, records), and a ghost log of the successful status
transitions, in order. -/
structure WState where
  jobs : List JobItem
  curated : List (String × String × List Enriched)
  log : List (String × String × String × Option String)

/-- Environment of external services: S3 get/list/put outcomes, DynamoDB
update/scan outcomes, gzip decoding, the scoring call, and the configured
batch size. -/
structure Env where
  s3get : String → String → Except ClientErr String
  listOk : Bool
  listing : String → String → List String
  putOk : String → String → Bool
  updateOk : String → String → String → Bool
  scanOk : Bool
  gunzip : String → String
  classify : List JValue → Except PyErr (List Sentiment)
  batchSize : Nat

def RAW_PREFIX : String := "raw/text/"

def CURATED_PREFIX : String := "curated/sentiment/"

/-- Label order for finbert-tone. -/
def LABELS : List String := ["positive", "negative", "neutral"]

/-- Per-item update performed by `update_status`'s UpdateExpression: set
`status`, and set `error_message` to the first 500 characters of `msg` when
`msg` is truthy (`if msg:`). -/
def applyUpdate (pk sk status : String) (msg : Option String) (j : JobItem) : JobItem :=
  if j.pk = pk ∧ j.sk = sk then
    { j with
      status := status
      error_message :=
        match msg with
        | some m => if m = "" then j.error_message else some (pyStrTake m 500)
        | none => j.error_message }
  else j

/-- `update_status`: one DynamoDB `update_item`, which either applies the
update or raises a `ClientError`. -/
def update_status (env : Env) (st : WState) (pk sk status : String) (msg : Option String) :
    Except PyErr WState :=
  if env.updateOk pk sk status then
    .ok { st with
          jobs := st.jobs.map (applyUpdate pk sk status msg)
          log := st.log ++ [(pk, sk, status, msg)] }
  else .error (.client ⟨"InternalError", "update_item failed"⟩)

/-- `list_objects_all`: one `list_objects_v2` page; a `ClientError` is caught
and turned into the empty list. -/
def list_objects_all (env : Env) (bucket pfx : String) : List String :=
  if env.listOk then env.listing bucket pfx else []

/-- The fallback candidates kept by `smart_get_object`: listed keys `k` with
`k.endswith("/" + fname) or k.endswith(fname)`. -/
def matchesOf (env : Env) (bucket key : String) : List String :=
  (list_objects_all env bucket RAW_PREFIX).filter
    (fun k => pyEndsWith k ("/" ++ lastSeg key) || pyEndsWith k (lastSeg key))

/-- The key picked from the matches: `sorted(matches)[-1]`. -/
def chosenOf (env : Env) (bucket key : String) : String :=
  (pySorted (matchesOf env bucket key)).getLastD ""

/-- `smart_get_object`: direct fetch; on `NoSuchKey` (only), list under
`RAW_PREFIX`, filter by filename, re-raise the original error if nothing
matches, else fetch `sorted(matches)[-1]`. -/
def smart_get_object (env : Env) (bucket key : String) : Except ClientErr String :=
  match env.s3get bucket key with
  | .ok body => .ok body
  | .error e =>
    if e.code ≠ "NoSuchKey" then .error e
    else if matchesOf env bucket key = [] then .error e
    else env.s3get bucket (chosenOf env bucket key)

/-- `read_jsonl_bytes`: gunzip when the key ends in `.gz`, split into lines,
strip each, skip blanks, parse each line with `json.loads` and skip lines
that fail to parse. -/
def read_jsonl_bytes (env : Env) (data : String) (key : String) : List JValue :=
  let text := if pyEndsWith key ".gz" then env.gunzip data else data
  (pySplit text '\n').foldl
    (fun records line =>
      let t := pyTrim line
      if t = "" then records
      else
        match json_loads t with
        | some rec => records ++ [rec]
        | none => records)
    []

/-- One record's text: `r.get("headline", "") or r.get("text", "")`. -/
def headlineOf (r : JValue) : Except PyErr JValue :=
  match pyGet r "headline" (.str "") with
  | .error e => .error e
  | .ok a => if a.truthy then .ok a else pyGet r "text" (.str "")

/-- The comprehension `[r.get("headline", "") or r.get("text", "") for r in records]`;
it raises at the first non-dict record. -/
def getHeadlines : List JValue → Except PyErr (List JValue)
  | [] => .ok []
  | r :: rs =>
    match headlineOf r with
    | .error e => .error e
    | .ok h =>
      match getHeadlines rs with
      | .error e => .error e
      | .ok hs => .ok (h :: hs)

/-- The comprehension `[r.get("symbol") for r in records]`. -/
def getSymbols : List JValue → Except PyErr (List JValue)
  | [] => .ok []
  | r :: rs =>
    match pyGet r "symbol" .null with
    | .error e => .error e
    | .ok s =>
      match getSymbols rs with
      | .error e => .error e
      | .ok ss => .ok (s :: ss)

/-- Inner loop `for j, label in enumerate(labels)`: index `idx = i + j` into
`symbols`/`headlines`, raising IndexError when out of range (Python list
indexing). -/
def buildRecs (symbols headlines : List JValue) (i : Nat) :
    List (Nat × Sentiment) → Except PyErr (List Enriched)
  | [] => .ok []
  | (j, lab) :: rest =>
    match symbols[i + j]?, headlines[i + j]? with
    | some s, some h =>
      match buildRecs symbols headlines i rest with
      | .ok out => .ok ({ symbol := s, headline := h, sentiment_label := lab } :: out)
      | .error e => .error e
    | _, _ => .error .indexError

/-- Outer loop `for i in range(0, len(headlines), BATCH_SIZE)`, fuel-indexed
so the recursion is structural.  `fuel = len(headlines) + 1` is always enough
when the step is positive, since `i` grows by at least one per iteration. -/
def enrichGo (classify : List JValue → Except PyErr (List Sentiment)) (bs : Nat)
    (headlines symbols : List JValue) : Nat → Nat → Except PyErr (List Enriched)
  | 0, _ => .ok []
  | fuel + 1, i =>
    if i < headlines.length then
      match classify ((headlines.drop i).take bs) with
      | .error e => .error e
      | .ok labels =>
        match buildRecs symbols headlines i labels.enum with
        | .error e => .error e
        | .ok recs =>
          match enrichGo classify bs headlines symbols fuel (i + bs) with
          | .error e => .error e
          | .ok rest => .ok (recs ++ rest)
    else .ok []

/-- The batched-classification stage of `process_job`: chunk `headlines` by
the batch size, classify each chunk, and assemble the enriched records.
`range` with step 0 raises a ValueError, as in Python. -/
def enrichAll (classify : List JValue → Except PyErr (List Sentiment)) (bs : Nat)
    (headlines symbols : List JValue) : Except PyErr (List Enriched) :=
  if bs = 0 then .error (.valueError "range() arg 3 must not be zero")
  else enrichGo classify bs headlines symbols (headlines.length + 1) 0

/-- Clean file base name in `write_curated`: drop a trailing `.gz`, then
append `.jsonl` unless already present. -/
def normBase (b : String) : String :=
  let b1 := if pyEndsWith b ".gz" then pyDropRight b 3 else b
  if pyEndsWith b1 ".jsonl" then b1 else b1 ++ ".jsonl"

/-- Curated output key derivation in `write_curated`: mirror path segments
`parts[2:5]` when the raw key has at least 6 segments, else the flat curated
root; base name cleaned by `normBase`. -/
def curated_key (raw_key : String) : String :=
  let parts := pySplit raw_key '/'
  let date_parts := if 6 ≤ parts.length then (parts.drop 2).take 3 else []
  let base := normBase (parts.getLastD "")
  if date_parts = [] then CURATED_PREFIX ++ base
  else CURATED_PREFIX ++ pyJoin "/" date_parts ++ "/" ++ base

/-- `write_curated`: one `put_object` of the enriched records at the derived
key (the JSONL serialization of the body is not modelled). -/
def write_curated (env : Env) (st : WState) (bucket raw_key : String)
    (enriched : List Enriched) : Except PyErr WState :=
  let out_key := curated_key raw_key
  if env.putOk bucket out_key then
    .ok { st with curated := st.curated ++ [(bucket, out_key, enriched)] }
  else .error (.client ⟨"InternalError", "put_object failed"⟩)

/-- Outcome of `process_job`: normal return, or an escaping exception.  The
state at the time of the raise is kept, since external effects performed
before the raise persist. -/
inductive WRes where
  | ok (st : WState)
  | err (e : PyErr) (st : WState)

/-- `process_job`: fetch (catching ClientError into a FAILED transition),
parse, fail the job when no records parse, extract texts and symbols,
classify in batches, write the curated object, and mark the job DONE.  Any
exception not caught inside escapes. -/
def process_job (env : Env) (st : WState) (item : JobItem) : WRes :=
  match smart_get_object env item.bucket item.sk with
  | .error e =>
    let msg := "NoSuchKey or S3 error for s3://" ++ item.bucket ++ "/" ++ item.sk ++ ": "
      ++ e.message
    match update_status env st item.pk item.sk "FAILED" (some msg) with
    | .ok st1 => .ok st1
    | .error e1 => .err e1 st
  | .ok raw_bytes =>
    let records := read_jsonl_bytes env raw_bytes item.sk
    if records.isEmpty then
      match update_status env st item.pk item.sk "FAILED"
          (some "No valid JSONL records found.") with
      | .ok st1 => .ok st1
      | .error e1 => .err e1 st
    else
      match getHeadlines records with
      | .error e => .err e st
      | .ok headlines =>
        match getSymbols records with
        | .error e => .err e st
        | .ok symbols =>
          match enrichAll env.classify env.batchSize headlines symbols with
          | .error e => .err e st
          | .ok enriched =>
            match write_curated env st item.bucket item.sk enriched with
            | .error e => .err e st
            | .ok st1 =>
              match update_status env st1 item.pk item.sk "DONE" none with
              | .ok st2 => .ok st2
              | .error e => .err e st1

/-- The DynamoDB scan with `#status = :s` filtered to PENDING_SENTIMENT;
raises on a store outage. -/
def scan_pending (env : Env) (jobs : List JobItem) : Except PyErr (List JobItem) :=
  if env.scanOk then .ok (jobs.filter (fun j => j.status = "PENDING_SENTIMENT"))
  else .error (.client ⟨"InternalError", "scan failed"⟩)

/-- The per-job `try/except` body of `poll_once`: run `process_job`; if an
exception escapes, best-effort mark the job FAILED with `str(e)`, swallowing
a failure of that update. -/
def dispatch_job (env : Env) (st : WState) (it : JobItem) : WState :=
  match process_job env st it with
  | .ok st1 => st1
  | .err e st1 =>
    match update_status env st1 it.pk it.sk "FAILED" (some (pyStr e)) with
    | .ok st2 => st2
    | .error _ => st1

/-- `poll_once`: scan for pending jobs and process each in order; a scan
failure is caught and leaves the cycle a no-op. -/
def poll_once (env : Env) (st : WState) : WState :=
  match scan_pending env st.jobs with
  | .ok items => items.foldl (dispatch_job env) st
  | .error _ => st

/-- The control loop `main`, restricted to finitely many observed cycles:
each cycle runs `poll_once` under that cycle's environment. -/
def run_cycles (envs : List Env) (st : WState) : WState :=
  envs.foldl (fun s e => poll_once e s) st

/-- Job identity. -/
def keyOf (j : JobItem) : String × String := (j.pk, j.sk)

/-- Immutable attributes of a job record. -/
def frameOf (j : JobItem) : String × String × String × Nat :=
  (j.pk, j.sk, j.bucket, j.created_ts)

/-- The table invariant: the composite key identifies the item. -/
def KeysUnique (jobs : List JobItem) : Prop := (jobs.map keyOf).Nodup

noncomputable section

/-- Real-valued model of `torch.nn.functional.softmax` on one logits row. -/
def softmax (xs : List ℝ) : List ℝ :=
  xs.map (fun x => Real.exp x / (xs.map Real.exp).sum)

/-- First index of a maximal element (torch's `argmax` keeps the earliest
index on ties): current best value, best index, next index. -/
def argmaxGo : List ℝ → ℝ → Nat → Nat → Nat
  | [], _, bi, _ => bi
  | y :: ys, b, bi, i => if b < y then argmaxGo ys y i (i + 1) else argmaxGo ys b bi (i + 1)

/-- `argmax` over a logits row. -/
def argmaxIdx : List ℝ → Nat
  | [] => 0
  | x :: rest => argmaxGo rest x 0 1

/-- `run_finbert_batch` on the model's logits rows: per row, the label is
`LABELS[argmax(logits)]` and the probability vector is `softmax(logits)`. -/
def run_finbert_batch (logitsBatch : List (List ℝ)) : List (String × List ℝ) :=
  logitsBatch.map (fun logits => (LABELS.getD (argmaxIdx logits) "", softmax logits))

end

/-! ## Concrete scenarios used by witnesses and counterexamples -/

/-- A nominal environment template: every external call succeeds, the raw
object store is empty, the scoring call returns a fixed neutral label per
text. -/
def baseEnv : Env where
  s3get := fun _ _ => .error ⟨"NoSuchKey", "missing"⟩
  listOk := true
  listing := fun _ _ => []
  putOk := fun _ _ => true
  updateOk := fun _ _ _ => true
  scanOk := true
  gunzip := id
  classify := fun ts => .ok (ts.map (fun _ => ⟨"neutral", []⟩))
  batchSize := 32

/-- Scenario C4: the spec's three-line example with one malformed middle
line, at a dated raw key. -/
def item4 : JobItem :=
  ⟨"JOB", "raw/text/2025/11/10/t.jsonl", "nlp-trading-platform", "PENDING_SENTIMENT", 0, none⟩

def payload4 : String :=
  "\x7b\"symbol\":\"AAPL\",\"text\":\"ok\"\x7d\nnot-json\n\x7b\"symbol\":\"MSFT\",\"text\":\"fine\"\x7d"

def env4 : Env :=
  { baseEnv with
    s3get := fun _ k =>
      if k = "raw/text/2025/11/10/t.jsonl" then .ok payload4
      else .error ⟨"NoSuchKey", "missing"⟩ }

def st4 : WState := ⟨[item4], [], []⟩

/-- Scenario C4 (zero records): the raw object is empty. -/
def item4e : JobItem := ⟨"JOB", "raw/text/2025/11/10/e.jsonl", "nlp-trading-platform",
  "PENDING_SENTIMENT", 0, none⟩

def env4e : Env := { baseEnv with s3get := fun _ _ => .ok "" }

def st4e : WState := ⟨[item4e], [], []⟩

/-- Scenario C1: the raw object is the single line `42`, which parses as a
JSON number; the field access on it raises an AttributeError that escapes
`process_job`. -/
def item1 : JobItem := ⟨"J", "raw/a.jsonl", "b", "PENDING_SENTIMENT", 0, none⟩

def env1 : Env := { baseEnv with s3get := fun _ _ => .ok "42" }

def st1 : WState := ⟨[item1], [], []⟩

/-- Scenario C10: a well-formed object line followed by a bare number line. -/
def item10 : JobItem := ⟨"J", "raw/b.jsonl", "b", "PENDING_SENTIMENT", 0, none⟩

def payload10 : String := "\x7b\"symbol\":\"A\",\"text\":\"ok\"\x7d\n42"

def env10 : Env := { baseEnv with s3get := fun _ _ => .ok payload10 }

def st10 : WState := ⟨[item10], [], []⟩

/-- Scenario C2: the recorded key `a.jsonl` is absent; the listing holds a
single key whose basename merely ends in `a.jsonl`. -/
def envC2 : Env :=
  { baseEnv with
    s3get := fun _ k =>
      if k = "raw/text/ba.jsonl" then .ok "BODY"
      else .error ⟨"NoSuchKey", "not found"⟩
    listing := fun _ _ => ["raw/text/ba.jsonl"] }

/-- Scenario C6: the job-store scan fails. -/
def envC6 : Env := { baseEnv with scanOk := false }

def itemC6 : JobItem := ⟨"P1", "raw/p.jsonl", "b", "PENDING_SENTIMENT", 7, none⟩

def stC6 : WState := ⟨[itemC6], [], []⟩

/-- Scenario C7: one DONE job and one PENDING job with distinct keys. -/
def jC7 : JobItem := ⟨"J1", "raw/k1.jsonl", "b", "DONE", 1, none⟩

def jC7p : JobItem := ⟨"J2", "raw/k2.jsonl", "b", "PENDING_SENTIMENT", 2, none⟩

def stC7 : WState := ⟨[jC7, jC7p], [], []⟩

/-- Scenario C9: a direct status update on a one-job store. -/
def itemC9 : JobItem := ⟨"K", "raw/c.jsonl", "bkt", "PENDING_SENTIMENT", 3, none⟩

def stC9 : WState := ⟨[itemC9], [], []⟩

/-! ## Numeric properties of the classifier (claim C8) -/

theorem argmaxGo_map (f : ℝ → ℝ) (hf : ∀ a b, f a < f b ↔ a < b) :
    ∀ (ys : List ℝ) (b : ℝ) (bi i : Nat),
      argmaxGo (ys.map f) (f b) bi i = argmaxGo ys b bi i := by
  intro ys
  induction ys with
  | nil => intro b bi i; rfl
  | cons y ys ih =>
    intro b bi i
    simp only [List.map_cons, argmaxGo]
    by_cases h : b < y
    · rw [if_pos ((hf b y).mpr h), if_pos h, ih]
    · rw [if_neg (fun hc => h ((hf b y).mp hc)), if_neg h, ih]

theorem argmaxIdx_map (f : ℝ → ℝ) (hf : ∀ a b, f a < f b ↔ a < b) (xs : List ℝ) :
    argmaxIdx (xs.map f) = argmaxIdx xs := by
  cases xs with
  | nil => rfl
  | cons x rest =>
    simp only [List.map_cons, argmaxIdx]
    exact argmaxGo_map f hf rest x 0 1

theorem argmaxGo_lt : ∀ (ys : List ℝ) (b : ℝ) (bi i : Nat),
    bi < i → argmaxGo ys b bi i < i + ys.length := by
  intro ys
  induction ys with
  | nil => intro b bi i h; simpa [argmaxGo] using h
  | cons y ys ih =>
    intro b bi i h
    simp only [argmaxGo, List.length_cons]
    by_cases hlt : b < y
    · rw [if_pos hlt]
      have := ih y i (i + 1) (Nat.lt_succ_self i)
      omega
    · rw [if_neg hlt]
      have := ih b bi (i + 1) (Nat.lt_succ_of_lt h)
      omega

theorem argmaxIdx_lt (xs : List ℝ) (h : xs ≠ []) : argmaxIdx xs < xs.length := by
  cases xs with
  | nil => exact absurd rfl h
  | cons x rest =>
    simp only [argmaxIdx, List.length_cons]
    have := argmaxGo_lt rest x 0 1 Nat.zero_lt_one
    omega

theorem sum_exp_pos (xs : List ℝ) (h : xs ≠ []) : 0 < (xs.map Real.exp).sum := by
  apply List.sum_pos
  · intro x hx
    rcases List.mem_map.mp hx with ⟨y, _, rfl⟩
    exact Real.exp_pos y
  · simpa using h

theorem sum_map_div (l : List ℝ) (c : ℝ) : (l.map (fun x => x / c)).sum = l.sum / c := by
  induction l with
  | nil => simp
  | cons x l ih => simp [ih, add_div]

/-- C8: every classification of `run_finbert_batch` reports the label at the
first index of the maximum probability (softmax preserves the argmax of the
logits, including torch's first-index tie-breaking, since it is strictly
monotone), every probability lies in `[0,1]`, the probabilities sum to `1`
(hence within any tolerance of `1`), and the argmax index is a valid index
into the three-element label list. -/
theorem c8_classification_numeric (batch : List (List ℝ))
    (h3 : ∀ l ∈ batch, l.length = 3) :
    ∀ out ∈ run_finbert_batch batch,
      out.1 = LABELS.getD (argmaxIdx out.2) ""
      ∧ (∀ p ∈ out.2, 0 ≤ p ∧ p ≤ 1)
      ∧ out.2.sum = 1
      ∧ argmaxIdx out.2 < LABELS.length := by
  intro out hout
  rcases List.mem_map.mp hout with ⟨logits, hmem, rfl⟩
  have hlen : logits.length = 3 := h3 logits hmem
  have hne : logits ≠ [] := by
    intro hnil; rw [hnil] at hlen; simp at hlen
  have hs : 0 < (logits.map Real.exp).sum := sum_exp_pos logits hne
  have hf : ∀ a b : ℝ,
      Real.exp a / (logits.map Real.exp).sum < Real.exp b / (logits.map Real.exp).sum
        ↔ a < b := by
    intro a b
    rw [div_lt_div_iff_of_pos_right hs, Real.exp_lt_exp]
  refine ⟨?_, ?_, ?_, ?_⟩
  · simp only
    rw [show softmax logits =
          logits.map (fun x => Real.exp x / (logits.map Real.exp).sum) from rfl,
        argmaxIdx_map _ hf]
  · intro p hp
    rcases List.mem_map.mp hp with ⟨x, hx, rfl⟩
    constructor
    · exact div_nonneg (Real.exp_pos x).le hs.le
    · rw [div_le_one hs]
      exact List.single_le_sum (fun q hq => by
        rcases List.mem_map.mp hq with ⟨y, _, rfl⟩
        exact (Real.exp_pos y).le) _ (List.mem_map_of_mem Real.exp hx)
  · show (softmax logits).sum = 1
    unfold softmax
    rw [show (logits.map fun x => Real.exp x / (logits.map Real.exp).sum)
          = (logits.map Real.exp).map (fun x => x / (logits.map Real.exp).sum) by
        rw [List.map_map]; rfl,
      sum_map_div, div_self hs.ne']
  · have : (softmax logits).length = 3 := by simp [softmax, hlen]
    have hlt := argmaxIdx_lt (softmax logits) (by
      intro hnil
      rw [hnil] at this
      simp at this)
    rw [this] at hlt
    simpa [LABELS] using hlt

/-- Witness for C8 at the concrete logits batch `[[0, 0, 0]]` and its single
output row. -/
theorem c8_classification_numeric_witness :
    (LABELS.getD (argmaxIdx [(0 : ℝ), 0, 0]) "", softmax [(0 : ℝ), 0, 0]).1
        = LABELS.getD (argmaxIdx (softmax [(0 : ℝ), 0, 0])) ""
    ∧ (softmax [(0 : ℝ), 0, 0]).sum = 1
    ∧ argmaxIdx (softmax [(0 : ℝ), 0, 0]) < LABELS.length := by
  have h := c8_classification_numeric [[(0 : ℝ), 0, 0]]
    (by
      intro l hl
      rw [List.mem_singleton] at hl
      rw [hl]
      rfl)
    (LABELS.getD (argmaxIdx [(0 : ℝ), 0, 0]) "", softmax [(0 : ℝ), 0, 0])
    (List.mem_singleton.mpr rfl)
  exact ⟨h.1, h.2.2.1, h.2.2.2⟩

/-! ## Shape lemmas for the store operations and the dispatcher -/

theorem pyStrTake_length_le (s : String) (n : Nat) : (pyStrTake s n).length ≤ n := by
  have : (pyStrTake s n).length = (s.toList.take n).length := rfl
  rw [this, List.length_take]
  exact min_le_left _ _

theorem applyUpdate_frame (pk sk status : String) (msg : Option String) (j : JobItem) :
    frameOf (applyUpdate pk sk status msg j) = frameOf j := by
  unfold applyUpdate frameOf
  split <;> rfl

theorem applyUpdate_ne (pk sk status : String) (msg : Option String) (j : JobItem)
    (h : ¬(j.pk = pk ∧ j.sk = sk)) : applyUpdate pk sk status msg j = j := by
  unfold applyUpdate
  rw [if_neg h]

theorem applyUpdate_eq (pk sk status : String) (m : String) (j : JobItem)
    (hpk : j.pk = pk) (hsk : j.sk = sk) (hm : m ≠ "") :
    applyUpdate pk sk status (some m) j =
      { j with status := status, error_message := some (pyStrTake m 500) } := by
  unfold applyUpdate
  rw [if_pos ⟨hpk, hsk⟩]
  simp [hm]

theorem update_status_ok (env : Env) (st : WState) (pk sk status : String)
    (msg : Option String) (st' : WState)
    (h : update_status env st pk sk status msg = .ok st') :
    st'.jobs = st.jobs.map (applyUpdate pk sk status msg)
    ∧ st'.log = st.log ++ [(pk, sk, status, msg)]
    ∧ st'.curated = st.curated
    ∧ env.updateOk pk sk status = true := by
  unfold update_status at h
  split at h
  · injection h with h
    subst h
    exact ⟨rfl, rfl, rfl, by assumption⟩
  · cases h

theorem update_status_err (env : Env) (st : WState) (pk sk status : String)
    (msg : Option String) (e : PyErr)
    (h : update_status env st pk sk status msg = .error e) :
    env.updateOk pk sk status = false := by
  unfold update_status at h
  split at h
  · cases h
  · simpa using (by assumption : ¬ env.updateOk pk sk status = true)

theorem write_curated_ok (env : Env) (st : WState) (bucket raw_key : String)
    (enriched : List Enriched) (st' : WState)
    (h : write_curated env st bucket raw_key enriched = .ok st') :
    st'.jobs = st.jobs ∧ st'.log = st.log
    ∧ st'.curated = st.curated ++ [(bucket, curated_key raw_key, enriched)] := by
  unfold write_curated at h
  dsimp only at h
  split at h
  · injection h with h
    subst h
    exact ⟨rfl, rfl, rfl⟩
  · cases h

/-- On a raise escaping `process_job`, the job store and the transition log
are exactly as before the call (only a curated object may have been written). -/
theorem process_job_err (env : Env) (st : WState) (it : JobItem) (e : PyErr) (st1 : WState)
    (h : process_job env st it = .err e st1) :
    st1.jobs = st.jobs ∧ st1.log = st.log := by
  unfold process_job at h
  dsimp only at h
  split at h
  · split at h
    · cases h
    · injection h with h h'
      subst h'
      exact ⟨rfl, rfl⟩
  · split at h
    · split at h
      · cases h
      · injection h with h h'
        subst h'
        exact ⟨rfl, rfl⟩
    · split at h
      · injection h with h h'
        subst h'
        exact ⟨rfl, rfl⟩
      · split at h
        · injection h with h h'
          subst h'
          exact ⟨rfl, rfl⟩
        · split at h
          · injection h with h h'
            subst h'
            exact ⟨rfl, rfl⟩
          · split at h
            · injection h with h h'
              subst h'
              exact ⟨rfl, rfl⟩
            · rename_i st2 hwc
              split at h
              · cases h
              · injection h with h h'
                subst h'
                rcases write_curated_ok _ _ _ _ _ _ hwc with ⟨hj, hl, _⟩
                exact ⟨hj, hl⟩

/-- On a normal return of `process_job`, the store was updated exactly once,
at the processed item's key. -/
theorem process_job_ok (env : Env) (st : WState) (it : JobItem) (st1 : WState)
    (h : process_job env st it = .ok st1) :
    ∃ s m, st1.jobs = st.jobs.map (applyUpdate it.pk it.sk s m)
      ∧ st1.log.length = st.log.length + 1 := by
  unfold process_job at h
  dsimp only at h
  split at h
  · split at h
    · rename_i hup
      injection h with h
      subst h
      rcases update_status_ok _ _ _ _ _ _ _ hup with ⟨hj, hl, _, _⟩
      exact ⟨_, _, hj, by rw [hl]; simp⟩
    · cases h
  · split at h
    · split at h
      · rename_i hup
        injection h with h
        subst h
        rcases update_status_ok _ _ _ _ _ _ _ hup with ⟨hj, hl, _, _⟩
        exact ⟨_, _, hj, by rw [hl]; simp⟩
      · cases h
    · split at h
      · cases h
      · split at h
        · cases h
        · split at h
          · cases h
          · split at h
            · cases h
            · rename_i st2 hwc
              split at h
              · rename_i hup
                injection h with h
                subst h
                rcases write_curated_ok _ _ _ _ _ _ hwc with ⟨hj2, hl2, _⟩
                rcases update_status_ok _ _ _ _ _ _ _ hup with ⟨hj, hl, _, _⟩
                refine ⟨"DONE", none, ?_, ?_⟩
                · rw [hj, hj2]
                · rw [hl, hl2]
                  simp
              · cases h

/-- The per-job boundary changes the store either not at all or by a single
keyed update at the processed item's key. -/
theorem dispatch_jobs_shape (env : Env) (st : WState) (it : JobItem) :
    (dispatch_job env st it).jobs = st.jobs
    ∨ ∃ s m, (dispatch_job env st it).jobs = st.jobs.map (applyUpdate it.pk it.sk s m) := by
  unfold dispatch_job
  split
  · rename_i st1 hok
    rcases process_job_ok _ _ _ _ hok with ⟨s, m, hj, _⟩
    exact Or.inr ⟨s, m, hj⟩
  · rename_i e st1 herr
    rcases process_job_err _ _ _ _ _ herr with ⟨hj1, _⟩
    split
    · rename_i st2 hup
      rcases update_status_ok _ _ _ _ _ _ _ hup with ⟨hj, _, _, _⟩
      exact Or.inr ⟨"FAILED", some (pyStr e), by rw [hj, hj1]⟩
    · exact Or.inl hj1

/-- The per-job boundary performs at most one successful status transition. -/
theorem dispatch_log_le (env : Env) (st : WState) (it : JobItem) :
    (dispatch_job env st it).log.length ≤ st.log.length + 1 := by
  unfold dispatch_job
  split
  · rename_i st1 hok
    rcases process_job_ok _ _ _ _ hok with ⟨s, m, _, hl⟩
    omega
  · rename_i e st1 herr
    rcases process_job_err _ _ _ _ _ herr with ⟨_, hl1⟩
    split
    · rename_i st2 hup
      rcases update_status_ok _ _ _ _ _ _ _ hup with ⟨_, hl, _, _⟩
      rw [hl, hl1]
      simp
    · rw [hl1]
      omega

theorem jobs_frame_map (jobs : List JobItem) (pk sk s : String) (m : Option String) :
    (jobs.map (applyUpdate pk sk s m)).map frameOf = jobs.map frameOf := by
  rw [List.map_map]
  exact List.map_congr_left (fun j _ => applyUpdate_frame pk sk s m j)

theorem dispatch_frame (env : Env) (st : WState) (it : JobItem) :
    (dispatch_job env st it).jobs.map frameOf = st.jobs.map frameOf := by
  rcases dispatch_jobs_shape env st it with h | ⟨s, m, h⟩ <;> rw [h]
  exact jobs_frame_map st.jobs it.pk it.sk s m

theorem foldl_dispatch_frame (env : Env) : ∀ (items : List JobItem) (st : WState),
    ((items.foldl (dispatch_job env) st).jobs).map frameOf = st.jobs.map frameOf := by
  intro items
  induction items with
  | nil => intro st; rfl
  | cons it items ih =>
    intro st
    rw [List.foldl_cons, ih, dispatch_frame]

/-- A whole poll cycle never changes any job's identity, bucket or creation
timestamp (nor adds or removes records). -/
theorem poll_frame (env : Env) (st : WState) :
    (poll_once env st).jobs.map frameOf = st.jobs.map frameOf := by
  unfold poll_once
  split
  · exact foldl_dispatch_frame env _ st
  · rfl

theorem jobs_keys_of_frame {l1 l2 : List JobItem}
    (h : l1.map frameOf = l2.map frameOf) : l1.map keyOf = l2.map keyOf := by
  have hp : ∀ l : List JobItem,
      l.map keyOf = (l.map frameOf).map (fun x => (x.1, x.2.1)) := by
    intro l
    rw [List.map_map]
    rfl
  rw [hp, hp, h]

theorem mem_dispatch_of_ne (env : Env) (st : WState) (it j : JobItem)
    (hne : keyOf j ≠ keyOf it) (hj : j ∈ st.jobs) :
    j ∈ (dispatch_job env st it).jobs := by
  rcases dispatch_jobs_shape env st it with h | ⟨s, m, h⟩ <;> rw [h]
  · exact hj
  · have hfix : applyUpdate it.pk it.sk s m j = j := by
      apply applyUpdate_ne
      rintro ⟨hpk, hsk⟩
      exact hne (by simp [keyOf, hpk, hsk])
    exact hfix ▸ List.mem_map_of_mem _ hj

theorem mem_foldl_dispatch (env : Env) : ∀ (items : List JobItem) (st : WState) (j : JobItem),
    (∀ it ∈ items, keyOf j ≠ keyOf it) → j ∈ st.jobs →
    j ∈ ((items.foldl (dispatch_job env) st).jobs) := by
  intro items
  induction items with
  | nil => intro st j _ hj; exact hj
  | cons it items ih =>
    intro st j hne hj
    rw [List.foldl_cons]
    exact ih _ j (fun x hx => hne x (List.mem_cons_of_mem it hx))
      (mem_dispatch_of_ne env st it j (hne it (List.mem_cons_self it items)) hj)

/-- A job already in a terminal state is untouched by a poll cycle: the scan
filters to PENDING_SENTIMENT, and with unique keys no update can hit it. -/
theorem mem_poll_terminal (env : Env) (st : WState) (j : JobItem)
    (huniq : KeysUnique st.jobs) (hmem : j ∈ st.jobs)
    (hterm : j.status = "DONE" ∨ j.status = "FAILED") :
    j ∈ (poll_once env st).jobs := by
  unfold poll_once
  split
  · rename_i items hsc
    unfold scan_pending at hsc
    split at hsc
    · injection hsc with hsc
      subst hsc
      apply mem_foldl_dispatch
      · intro it hit
        have hit2 := List.mem_filter.mp hit
        have hstat : it.status = "PENDING_SENTIMENT" := by
          have := hit2.2
          simpa using this
        intro hk
        have : j = it := List.inj_on_of_nodup_map huniq hmem hit2.1 hk
        rcases hterm with ht | ht <;> rw [this, hstat] at ht <;> exact absurd ht (by decide)
      · exact hmem
    · cases hsc
  · exact hmem

theorem run_cycles_terminal (envs : List Env) : ∀ (st : WState) (j : JobItem),
    KeysUnique st.jobs → j ∈ st.jobs → (j.status = "DONE" ∨ j.status = "FAILED") →
    j ∈ (run_cycles envs st).jobs := by
  induction envs with
  | nil => intro st j _ hm _; exact hm
  | cons e envs ih =>
    intro st j hu hm ht
    unfold run_cycles
    rw [List.foldl_cons]
    refine ih (poll_once e st) j ?_ (mem_poll_terminal e st j hu hm ht) ht
    unfold KeysUnique
    rw [jobs_keys_of_frame (poll_frame e st)]
    exact hu

theorem poll_once_scan_ok (env : Env) (st : WState) (h : env.scanOk = true) :
    poll_once env st =
      (st.jobs.filter (fun x => x.status = "PENDING_SENTIMENT")).foldl
        (dispatch_job env) st := by
  simp [poll_once, scan_pending, h]

/-! ## Order lemmas for the resolver's lexicographic choice (claim C2) -/

theorem lexLe_refl : ∀ l : List Char, lexLe l l = true := by
  intro l
  induction l with
  | nil => rfl
  | cons a as ih => simp [lexLe, ih]

theorem lexLe_total : ∀ a b : List Char, lexLe a b = true ∨ lexLe b a = true := by
  intro a
  induction a with
  | nil => intro b; left; rfl
  | cons x xs ih =>
    intro b
    cases b with
    | nil => right; rfl
    | cons y ys =>
      by_cases h1 : x.toNat < y.toNat
      · left; simp [lexLe, h1]
      · by_cases h2 : y.toNat < x.toNat
        · right; simp [lexLe, h2]
        · rcases ih ys with h | h
          · left; simp [lexLe, h1, h2, h]
          · right; simp [lexLe, h1, h2, h]

theorem lexLe_trans : ∀ a b c : List Char,
    lexLe a b = true → lexLe b c = true → lexLe a c = true := by
  intro a
  induction a with
  | nil => intro b c _ _; rfl
  | cons x xs ih =>
    intro b c hab hbc
    cases b with
    | nil => simp [lexLe] at hab
    | cons y ys =>
      cases c with
      | nil => simp [lexLe] at hbc
      | cons z zs =>
        simp only [lexLe] at hab hbc ⊢
        by_cases h1 : x.toNat < y.toNat
        · by_cases h2 : y.toNat < z.toNat
          · rw [if_pos (by omega : x.toNat < z.toNat)]
          · by_cases h3 : z.toNat < y.toNat
            · simp [h2, h3] at hbc
            · rw [if_pos (by omega : x.toNat < z.toNat)]
        · by_cases h1' : y.toNat < x.toNat
          · simp [h1, h1'] at hab
          · by_cases h2 : y.toNat < z.toNat
            · rw [if_pos (by omega : x.toNat < z.toNat)]
            · by_cases h3 : z.toNat < y.toNat
              · simp [h2, h3] at hbc
              · rw [if_neg (by omega : ¬ x.toNat < z.toNat),
                  if_neg (by omega : ¬ z.toNat < x.toNat)]
                exact ih ys zs (by simpa [h1, h1'] using hab) (by simpa [h2, h3] using hbc)

theorem pyLe_refl (s : String) : pyLe s s = true := lexLe_refl _

theorem pyLe_total (a b : String) : pyLe a b = true ∨ pyLe b a = true :=
  lexLe_total a.toList b.toList

theorem pyLe_trans (a b c : String) :
    pyLe a b = true → pyLe b c = true → pyLe a c = true :=
  lexLe_trans a.toList b.toList c.toList

theorem mem_insSorted (x : String) :
    ∀ (l : List String) (y : String), y ∈ insSorted x l ↔ y = x ∨ y ∈ l := by
  intro l
  induction l with
  | nil => intro y; simp [insSorted]
  | cons a as ih =>
    intro y
    simp only [insSorted]
    split
    · simp only [List.mem_cons]
    · simp only [List.mem_cons, ih y]
      tauto

theorem mem_pySorted : ∀ (l : List String) (y : String), y ∈ pySorted l ↔ y ∈ l := by
  intro l
  induction l with
  | nil => intro y; exact Iff.rfl
  | cons a as ih =>
    intro y
    show y ∈ insSorted a (pySorted as) ↔ _
    rw [mem_insSorted]
    simp [ih y, List.mem_cons]

theorem pairwise_insSorted (x : String) : ∀ (l : List String),
    l.Pairwise (fun a b => pyLe a b = true) →
    (insSorted x l).Pairwise (fun a b => pyLe a b = true) := by
  intro l
  induction l with
  | nil => intro _; simp [insSorted]
  | cons a as ih =>
    intro hp
    rcases List.pairwise_cons.mp hp with ⟨ha, has⟩
    simp only [insSorted]
    split
    · rename_i hxa
      refine List.pairwise_cons.mpr ⟨?_, hp⟩
      intro z hz
      rcases List.mem_cons.mp hz with rfl | hz2
      · exact hxa
      · exact pyLe_trans x a z hxa (ha z hz2)
    · rename_i hxa
      refine List.pairwise_cons.mpr ⟨?_, ih has⟩
      intro z hz
      rcases (mem_insSorted x as z).mp hz with rfl | hz2
      · rcases pyLe_total a z with h | h
        · exact h
        · exact absurd h hxa
      · exact ha z hz2

theorem pairwise_pySorted : ∀ l : List String,
    (pySorted l).Pairwise (fun a b => pyLe a b = true) := by
  intro l
  induction l with
  | nil => simp [pySorted]
  | cons a as ih => exact pairwise_insSorted a (pySorted as) ih

theorem getLastD_mem : ∀ (l : List String) (d : String), l ≠ [] → l.getLastD d ∈ l := by
  intro l
  induction l with
  | nil => intro d h; exact absurd rfl h
  | cons a as ih =>
    intro d _
    rw [List.getLastD_cons]
    by_cases hnil : as = []
    · subst hnil; simp
    · exact List.mem_cons_of_mem a (ih a hnil)

theorem getLastD_default_irrel (l : List String) (d d' : String) (h : l ≠ []) :
    l.getLastD d = l.getLastD d' := by
  cases l with
  | nil => exact absurd rfl h
  | cons a as => rw [List.getLastD_cons, List.getLastD_cons]

theorem pairwise_le_getLastD : ∀ (l : List String),
    l.Pairwise (fun a b => pyLe a b = true) →
    ∀ x ∈ l, pyLe x (l.getLastD "") = true := by
  intro l
  induction l with
  | nil => intro _ x hx; simp at hx
  | cons a as ih =>
    intro hp x hx
    rcases List.pairwise_cons.mp hp with ⟨ha, has⟩
    rw [List.getLastD_cons]
    rcases List.mem_cons.mp hx with rfl | hx2
    · by_cases hnil : as = []
      · subst hnil; exact pyLe_refl x
      · exact ha _ (getLastD_mem as x hnil)
    · by_cases hnil : as = []
      · subst hnil; simp at hx2
      · rw [getLastD_default_irrel as a "" hnil]
        exact ih has x hx2

/-- The key the resolver picks, `sorted(matches)[-1]`, is a matching key and
a lexicographic upper bound of all matching keys. -/
theorem pySorted_last_max (l : List String) (h : l ≠ []) :
    (pySorted l).getLastD "" ∈ l
    ∧ ∀ k ∈ l, pyLe k ((pySorted l).getLastD "") = true := by
  have hne : pySorted l ≠ [] := by
    intro h0
    cases l with
    | nil => exact h rfl
    | cons a as =>
      have : a ∈ pySorted (a :: as) := (mem_pySorted _ a).mpr (List.mem_cons_self a as)
      rw [h0] at this
      simp at this
  constructor
  · exact (mem_pySorted l _).mp (getLastD_mem _ "" hne)
  · intro k hk
    exact pairwise_le_getLastD (pySorted l) (pairwise_pySorted l) k ((mem_pySorted l k).mpr hk)

/-- C2 (amended): `smart_get_object` returns the direct fetch when it
succeeds; a non-NoSuchKey error propagates unchanged with no fallback; on
NoSuchKey the resolver keeps exactly the listed keys `k` with
`k.endswith("/" + filename)` or `k.endswith(filename)` (filename being the
last path segment of the key) — a condition weaker than "exactly equal to
filename" — re-raises the original error when no key matches, and otherwise
fetches the lexicographically greatest matching key. -/
theorem c2_smart_get_object_resolution (env : Env) (bucket key : String) :
    (∀ body, env.s3get bucket key = .ok body → smart_get_object env bucket key = .ok body)
    ∧ (∀ e, env.s3get bucket key = .error e → e.code ≠ "NoSuchKey" →
        smart_get_object env bucket key = .error e)
    ∧ matchesOf env bucket key = (list_objects_all env bucket RAW_PREFIX).filter
        (fun k => pyEndsWith k ("/" ++ lastSeg key) || pyEndsWith k (lastSeg key))
    ∧ (∀ e, env.s3get bucket key = .error e → e.code = "NoSuchKey" →
        (matchesOf env bucket key = [] → smart_get_object env bucket key = .error e)
        ∧ (matchesOf env bucket key ≠ [] →
            chosenOf env bucket key ∈ matchesOf env bucket key
            ∧ (∀ k ∈ matchesOf env bucket key, pyLe k (chosenOf env bucket key) = true)
            ∧ smart_get_object env bucket key = env.s3get bucket (chosenOf env bucket key))) := by
  refine ⟨?_, ?_, rfl, ?_⟩
  · intro body h
    simp [smart_get_object, h]
  · intro e h hne
    simp [smart_get_object, h, hne]
  · intro e h hcode
    constructor
    · intro hm
      simp [smart_get_object, h, hcode, hm]
    · intro hm
      rcases pySorted_last_max (matchesOf env bucket key) hm with ⟨hmem, hub⟩
      exact ⟨hmem, hub, by simp [smart_get_object, h, hcode, hm, chosenOf]⟩

/-- C2 counterexample: with the recorded key `a.jsonl` absent and the listing
holding only `raw/text/ba.jsonl` — a key that neither ends with `/a.jsonl`
nor equals `a.jsonl` — the claim's filter keeps nothing, so the claim
requires the original NoSuchKey error to be re-raised; the code instead
matches that key by bare `endswith` and returns its bytes. -/
theorem c2_counterexample :
    envC2.s3get "b" "a.jsonl" = .error ⟨"NoSuchKey", "not found"⟩
    ∧ list_objects_all envC2 "b" RAW_PREFIX = ["raw/text/ba.jsonl"]
    ∧ pyEndsWith "raw/text/ba.jsonl" ("/" ++ lastSeg "a.jsonl") = false
    ∧ "raw/text/ba.jsonl" ≠ lastSeg "a.jsonl"
    ∧ smart_get_object envC2 "b" "a.jsonl" = .ok "BODY" := by
  refine ⟨rfl, rfl, by decide, by decide, rfl⟩

/-- Witness for C2 at the concrete scenario. -/
theorem c2_smart_get_object_resolution_witness :
    chosenOf envC2 "b" "a.jsonl" ∈ matchesOf envC2 "b" "a.jsonl"
    ∧ (∀ k ∈ matchesOf envC2 "b" "a.jsonl", pyLe k (chosenOf envC2 "b" "a.jsonl") = true)
    ∧ smart_get_object envC2 "b" "a.jsonl" =
        envC2.s3get "b" (chosenOf envC2 "b" "a.jsonl") :=
  ((c2_smart_get_object_resolution envC2 "b" "a.jsonl").2.2.2
    ⟨"NoSuchKey", "not found"⟩ rfl rfl).2 (by decide)

/-- C3: for a raw key splitting into at least 6 slash-separated segments the
curated output key is the curated prefix, segments 3–5 (0-based `parts[2:5]`),
and the base name normalised by `normBase` (trailing `.gz` removed, `.jsonl`
appended when not already present); the spec's example maps exactly as
stated; with fewer than 6 segments the normalised base name sits directly
under the flat curated root. -/
theorem c3_curated_path_derivation (raw_key : String) :
    (∀ p0 p1 p2 p3 p4 rest, pySplit raw_key '/' = p0 :: p1 :: p2 :: p3 :: p4 :: rest →
      rest ≠ [] →
      curated_key raw_key =
        CURATED_PREFIX ++ p2 ++ "/" ++ p3 ++ "/" ++ p4 ++ "/"
          ++ normBase ((p0 :: p1 :: p2 :: p3 :: p4 :: rest).getLastD ""))
    ∧ ((pySplit raw_key '/').length < 6 →
        curated_key raw_key = CURATED_PREFIX ++ normBase ((pySplit raw_key '/').getLastD ""))
    ∧ curated_key "raw/text/2025/11/10/foo.jsonl.gz"
        = "curated/sentiment/2025/11/10/foo.jsonl" := by
  refine ⟨?_, ?_, by rfl⟩
  · intro p0 p1 p2 p3 p4 rest h hrest
    have hrl : 0 < rest.length := List.length_pos.mpr hrest
    have h6 : 6 ≤ (p0 :: p1 :: p2 :: p3 :: p4 :: rest).length := by
      simp only [List.length_cons]
      omega
    simp only [curated_key, h, if_pos h6]
    have hdt : ((p0 :: p1 :: p2 :: p3 :: p4 :: rest).drop 2).take 3 = [p2, p3, p4] := by
      simp
    rw [hdt]
    have hne : ([p2, p3, p4] : List String) ≠ [] := by simp
    rw [if_neg hne]
    simp only [pyJoin]
    simp [String.append_assoc]
  · intro hlt
    simp only [curated_key, if_neg (by omega : ¬ 6 ≤ (pySplit raw_key '/').length)]
    simp

/-- Witness for C3 at the spec's example key. -/
theorem c3_curated_path_derivation_witness :
    curated_key "raw/text/2025/11/10/foo.jsonl.gz" =
      CURATED_PREFIX ++ "2025" ++ "/" ++ "11" ++ "/" ++ "10" ++ "/"
        ++ normBase ((["raw", "text", "2025", "11", "10", "foo.jsonl.gz"] : List String).getLastD "") :=
  (c3_curated_path_derivation "raw/text/2025/11/10/foo.jsonl.gz").1
    "raw" "text" "2025" "11" "10" ["foo.jsonl.gz"] rfl (by decide)

/-- C6: when the job-store scan fails, the poll cycle is a no-op — no job
transition is attempted, every job record (in particular every PENDING one)
is unchanged — and a subsequent successful scan still returns exactly the
PENDING_SENTIMENT jobs of the unchanged store. -/
theorem c6_scan_failure_leaves_state (env : Env) (st : WState) (h : env.scanOk = false) :
    poll_once env st = st
    ∧ (∀ env2, env2.scanOk = true →
        scan_pending env2 (poll_once env st).jobs =
          .ok (st.jobs.filter (fun j => j.status = "PENDING_SENTIMENT"))) := by
  have hp : poll_once env st = st := by
    simp [poll_once, scan_pending, h]
  exact ⟨hp, fun env2 h2 => by rw [hp]; simp [scan_pending, h2]⟩

/-- Witness for C6 at the concrete outage scenario. -/
theorem c6_scan_failure_leaves_state_witness :
    poll_once envC6 stC6 = stC6
    ∧ scan_pending baseEnv (poll_once envC6 stC6).jobs =
        .ok (stC6.jobs.filter (fun j => j.status = "PENDING_SENTIMENT")) :=
  ⟨(c6_scan_failure_leaves_state envC6 stC6 rfl).1,
    (c6_scan_failure_leaves_state envC6 stC6 rfl).2 baseEnv rfl⟩

/-- C9: a successful `update_status` keeps the store's length, and per
position changes nothing but `status`/`error_message` — `pk`, `sk`, `bucket`
and `created_ts` are untouched, and records at other keys are untouched
entirely; moreover no dispatcher operation over a whole poll cycle ever
changes any record's identity, bucket or creation timestamp. -/
theorem c9_update_modifies_only_status_and_message (env : Env) (st : WState)
    (pk sk status : String) (msg : Option String) (st' : WState)
    (h : update_status env st pk sk status msg = .ok st') :
    st'.jobs.length = st.jobs.length
    ∧ (∀ (i : Nat) (j j' : JobItem), st.jobs[i]? = some j → st'.jobs[i]? = some j' →
        j'.pk = j.pk ∧ j'.sk = j.sk ∧ j'.bucket = j.bucket ∧ j'.created_ts = j.created_ts
        ∧ (¬(j.pk = pk ∧ j.sk = sk) → j' = j))
    ∧ st'.curated = st.curated
    ∧ (∀ env2 st2, (poll_once env2 st2).jobs.map frameOf = st2.jobs.map frameOf) := by
  rcases update_status_ok _ _ _ _ _ _ _ h with ⟨hj, _, hc, _⟩
  refine ⟨by rw [hj]; simp, ?_, hc, fun env2 st2 => poll_frame env2 st2⟩
  intro i j j' hji hji'
  rw [hj, List.getElem?_map, hji] at hji'
  simp only [Option.map_some'] at hji'
  injection hji' with hji'
  subst hji'
  have hfr := applyUpdate_frame pk sk status msg j
  simp only [frameOf, Prod.mk.injEq] at hfr
  exact ⟨hfr.1, hfr.2.1, hfr.2.2.1, hfr.2.2.2,
    fun hne => applyUpdate_ne _ _ _ _ _ hne⟩

/-- Witness for C9: a DONE transition on a one-job store. -/
theorem c9_update_modifies_only_status_and_message_witness :
    (WState.mk [⟨"K", "raw/c.jsonl", "bkt", "DONE", 3, none⟩] []
        [("K", "raw/c.jsonl", "DONE", none)]).jobs.length = stC9.jobs.length :=
  (c9_update_modifies_only_status_and_message baseEnv stC9 "K" "raw/c.jsonl" "DONE" none
    (WState.mk [⟨"K", "raw/c.jsonl", "bkt", "DONE", 3, none⟩] []
      [("K", "raw/c.jsonl", "DONE", none)]) rfl).1

/-- C7: over any finite run of poll cycles, a job whose status is DONE or
FAILED is never touched again (given the table's key uniqueness): each
cycle's scan is filtered to PENDING_SENTIMENT, each per-job boundary logs at
most one successful transition, and the terminal record survives every cycle
unchanged. -/
theorem c7_terminal_jobs_never_revisited (envs : List Env) (st : WState) (j : JobItem)
    (huniq : KeysUnique st.jobs) (hmem : j ∈ st.jobs)
    (hterm : j.status = "DONE" ∨ j.status = "FAILED") :
    j ∈ (run_cycles envs st).jobs
    ∧ (∀ env2 st2, env2.scanOk = true →
        poll_once env2 st2 =
          (st2.jobs.filter (fun x => x.status = "PENDING_SENTIMENT")).foldl
            (dispatch_job env2) st2)
    ∧ (∀ env2 st2 it, (dispatch_job env2 st2 it).log.length ≤ st2.log.length + 1) :=
  ⟨run_cycles_terminal envs st j huniq hmem hterm,
    fun env2 st2 h2 => poll_once_scan_ok env2 st2 h2,
    fun env2 st2 it => dispatch_log_le env2 st2 it⟩

/-- Witness for C7: one cycle over a store holding a DONE job and a PENDING
job. -/
theorem c7_terminal_jobs_never_revisited_witness :
    jC7 ∈ (run_cycles [baseEnv] stC7).jobs :=
  (c7_terminal_jobs_never_revisited [baseEnv] stC7 jC7
    (by unfold KeysUnique; decide) (by decide) (Or.inl rfl)).1

/-- C1: if an exception escapes `process_job`, the per-job boundary catches
it, having left the job store untouched (the raise never commits a partial
store change); when the best-effort FAILED update succeeds, the boundary
transitions exactly that job's key to FAILED carrying `str(e)` truncated to
at most 500 characters; when the FAILED update itself fails, the stored
state is exactly as before (a PENDING job stays PENDING); and in a scanning
cycle every scanned job is dispatched through this total per-job boundary,
so no job failure ever terminates the control loop. -/
theorem c1_unexpected_failure_boundary (env : Env) (st : WState) (it : JobItem)
    (e : PyErr) (st1 : WState) (h : process_job env st it = .err e st1) :
    st1.jobs = st.jobs
    ∧ (env.updateOk it.pk it.sk "FAILED" = true →
        (dispatch_job env st it).jobs =
          st.jobs.map (applyUpdate it.pk it.sk "FAILED" (some (pyStr e)))
        ∧ (pyStr e ≠ "" → ∀ j ∈ st.jobs, j.pk = it.pk → j.sk = it.sk →
            applyUpdate it.pk it.sk "FAILED" (some (pyStr e)) j =
              { j with status := "FAILED", error_message := some (pyStrTake (pyStr e) 500) })
        ∧ (pyStrTake (pyStr e) 500).length ≤ 500)
    ∧ (env.updateOk it.pk it.sk "FAILED" = false →
        dispatch_job env st it = st1 ∧ (dispatch_job env st it).jobs = st.jobs)
    ∧ (∀ env2 st2, env2.scanOk = true →
        poll_once env2 st2 =
          (st2.jobs.filter (fun x => x.status = "PENDING_SENTIMENT")).foldl
            (dispatch_job env2) st2) := by
  rcases process_job_err _ _ _ _ _ h with ⟨hj1, _⟩
  refine ⟨hj1, ?_, ?_, fun env2 st2 h2 => poll_once_scan_ok env2 st2 h2⟩
  · intro hup
    have hd : dispatch_job env st it =
        { st1 with
          jobs := st1.jobs.map (applyUpdate it.pk it.sk "FAILED" (some (pyStr e)))
          log := st1.log ++ [(it.pk, it.sk, "FAILED", some (pyStr e))] } := by
      unfold dispatch_job
      rw [h]
      simp [update_status, hup]
    refine ⟨?_, ?_, pyStrTake_length_le _ _⟩
    · rw [hd]
      show st1.jobs.map _ = _
      rw [hj1]
    · intro hne j _ hpk hsk
      exact applyUpdate_eq _ _ _ _ _ hpk hsk hne
  · intro hup
    have hd : dispatch_job env st it = st1 := by
      unfold dispatch_job
      rw [h]
      simp [update_status, hup]
    exact ⟨hd, by rw [hd, hj1]⟩

/-- Witness for C1: a bare-number payload raises an AttributeError that
escapes `process_job`; the boundary marks the job FAILED. -/
theorem c1_unexpected_failure_boundary_witness :
    (dispatch_job env1 st1 item1).jobs =
      st1.jobs.map (applyUpdate item1.pk item1.sk "FAILED"
        (some (pyStr (.attrError "int")))) :=
  ((c1_unexpected_failure_boundary env1 st1 item1 (.attrError "int") st1 rfl).2.1 rfl).1

theorem read_fold_filterMap : ∀ (lines : List String) (acc : List JValue),
    lines.foldl (fun records line =>
      let t := pyTrim line
      if t = "" then records
      else
        match json_loads t with
        | some rec => records ++ [rec]
        | none => records) acc
    = acc ++ lines.filterMap (fun line =>
        if pyTrim line = "" then none else json_loads (pyTrim line)) := by
  intro lines
  induction lines with
  | nil => intro acc; simp
  | cons l ls ih =>
    intro acc
    rw [List.foldl_cons, List.filterMap_cons]
    by_cases ht : pyTrim l = ""
    · simp [ht, ih]
    · cases hp : json_loads (pyTrim l) with
      | none => simp [ht, hp, ih]
      | some v => simp [ht, hp, ih]

/-- C4: parsing is per line — a blank line or a line on which `json.loads`
fails is skipped while every other line is still parsed; the spec's
three-line example with a malformed middle line yields exactly 2 parsed
records, 2 enriched records and a DONE job; and a payload with zero parsed
records makes `process_job` transition the job to FAILED with the message
`No valid JSONL records found.` (which starts with `No valid`) while writing
no curated output (the state change touches only `jobs` and the log). -/
theorem c4_parse_failures_skipped :
    (∀ env data key, pyEndsWith key ".gz" = false →
      read_jsonl_bytes env data key = (pySplit data '\n').filterMap
        (fun line => if pyTrim line = "" then none else json_loads (pyTrim line)))
    ∧ (read_jsonl_bytes env4 payload4 item4.sk).length = 2
    ∧ (∃ stf, process_job env4 st4 item4 = .ok stf
        ∧ stf.jobs.map (fun j => j.status) = ["DONE"]
        ∧ stf.curated.map (fun c => c.2.2.length) = [2])
    ∧ (∀ env st item data, env.s3get item.bucket item.sk = .ok data →
        read_jsonl_bytes env data item.sk = [] →
        env.updateOk item.pk item.sk "FAILED" = true →
        process_job env st item = .ok
          { st with
            jobs := st.jobs.map (applyUpdate item.pk item.sk "FAILED"
              (some "No valid JSONL records found."))
            log := st.log ++ [(item.pk, item.sk, "FAILED",
              some "No valid JSONL records found.")] }
        ∧ ("No valid".toList.isPrefixOf "No valid JSONL records found.".toList) = true) := by
  refine ⟨?_, by rfl, ?_, ?_⟩
  · intro env data key hgz
    unfold read_jsonl_bytes
    rw [if_neg (by simp [hgz])]
    rw [read_fold_filterMap]
    simp
  · exact ⟨⟨[⟨"JOB", "raw/text/2025/11/10/t.jsonl", "nlp-trading-platform", "DONE", 0, none⟩],
      [("nlp-trading-platform", "curated/sentiment/2025/11/10/t.jsonl",
        [⟨.str "AAPL", .str "ok", ⟨"neutral", []⟩⟩,
         ⟨.str "MSFT", .str "fine", ⟨"neutral", []⟩⟩])],
      [("JOB", "raw/text/2025/11/10/t.jsonl", "DONE", none)]⟩, rfl, rfl, rfl⟩
  · intro env st item data hget hrec hup
    have hsmart : smart_get_object env item.bucket item.sk = .ok data := by
      unfold smart_get_object
      rw [hget]
    refine ⟨?_, by decide⟩
    simp [process_job, hsmart, hrec, update_status, hup]

/-- Witness for C4 at the zero-record scenario. -/
theorem c4_parse_failures_skipped_witness :
    process_job env4e st4e item4e = .ok
      { st4e with
        jobs := st4e.jobs.map (applyUpdate item4e.pk item4e.sk "FAILED"
          (some "No valid JSONL records found."))
        log := st4e.log ++ [(item4e.pk, item4e.sk, "FAILED",
          some "No valid JSONL records found.")] }
    ∧ ("No valid".toList.isPrefixOf "No valid JSONL records found.".toList) = true :=
  c4_parse_failures_skipped.2.2.2 env4e st4e item4e "" rfl rfl rfl

theorem headlineOf_obj (fs : List (String × JValue)) :
    ∃ v, headlineOf (.obj fs) = .ok v := by
  simp only [headlineOf, pyGet]
  split
  · exact ⟨_, rfl⟩
  · exact ⟨_, rfl⟩

theorem getHeadlines_nonobj : ∀ (records : List JValue) (r : JValue), r ∈ records →
    (∀ fs, r ≠ JValue.obj fs) → ∃ t, getHeadlines records = .error (.attrError t) := by
  intro records
  induction records with
  | nil => intro r hr _; simp at hr
  | cons r0 rs ih =>
    intro r hr hno
    cases r0 with
    | obj fs =>
      rcases List.mem_cons.mp hr with rfl | hmem
      · exact absurd rfl (hno fs)
      · rcases ih r hmem hno with ⟨t, ht⟩
        rcases headlineOf_obj fs with ⟨v, hv⟩
        refine ⟨t, ?_⟩
        simp only [getHeadlines, hv, ht]
    | null => exact ⟨_, rfl⟩
    | bool b => exact ⟨_, rfl⟩
    | num n => exact ⟨_, rfl⟩
    | str s => exact ⟨_, rfl⟩
    | arr es => exact ⟨_, rfl⟩

/-- C10: a line that is valid JSON but not a JSON object is appended to the
record list by `read_jsonl_bytes` (not skipped); the later `r.get` access on
a non-dict record raises an AttributeError, so `process_job` raises instead
of skipping, and the per-job boundary then marks the whole job FAILED —
unlike an unparseable line, which is locally skipped. -/
theorem c10_valid_json_non_object_fails_job :
    (∀ (records : List JValue) (r : JValue), r ∈ records →
      (∀ fs, r ≠ JValue.obj fs) → ∃ t, getHeadlines records = .error (.attrError t))
    ∧ read_jsonl_bytes env10 payload10 item10.sk =
        [.obj [("symbol", .str "A"), ("text", .str "ok")], .num 42]
    ∧ process_job env10 st10 item10 = .err (.attrError "int") st10
    ∧ (dispatch_job env10 st10 item10).jobs.map (fun j => j.status) = ["FAILED"] :=
  ⟨getHeadlines_nonobj, by rfl, by rfl, by rfl⟩

/-- Witness for C10: a singleton record list holding a bare number. -/
theorem c10_valid_json_non_object_fails_job_witness :
    ∃ t, getHeadlines [JValue.num 7] = .error (.attrError t) :=
  c10_valid_json_non_object_fails_job.1 [JValue.num 7] (.num 7)
    (List.mem_singleton.mpr rfl) (fun _ h => JValue.noConfusion h)

theorem buildRecs_enumFrom (symbols headlines : List JValue)
    (hlen : symbols.length = headlines.length) :
    ∀ (ls : List Sentiment) (j0 i : Nat),
      (∀ j, j < ls.length → i + j0 + j < headlines.length) →
      ∃ out, buildRecs symbols headlines i (List.enumFrom j0 ls) = .ok out
        ∧ out.length = ls.length
        ∧ ∀ k, k < ls.length →
            ∃ rec, out[k]? = some rec
              ∧ symbols[i + j0 + k]? = some rec.symbol
              ∧ headlines[i + j0 + k]? = some rec.headline := by
  intro ls
  induction ls with
  | nil =>
    intro j0 i _
    exact ⟨[], rfl, rfl, fun k hk => absurd hk (by simp)⟩
  | cons lab ls ih =>
    intro j0 i hbound
    have h0 : i + j0 + 0 < headlines.length := hbound 0 (by simp)
    have h0h : i + j0 < headlines.length := by omega
    have h0s : i + j0 < symbols.length := by rw [hlen]; exact h0h
    rcases ih (j0 + 1) i (fun j hj => by
      have := hbound (j + 1) (by simp only [List.length_cons]; omega)
      omega) with ⟨out, hout, houtlen, hidx⟩
    refine ⟨{ symbol := symbols[i + j0], headline := headlines[i + j0],
              sentiment_label := lab } :: out, ?_, by simp [houtlen], ?_⟩
    · rw [List.enumFrom_cons]
      simp only [buildRecs, List.getElem?_eq_getElem h0s, List.getElem?_eq_getElem h0h,
        hout]
    · intro k hk
      cases k with
      | zero =>
        refine ⟨{ symbol := symbols[i + j0], headline := headlines[i + j0],
                  sentiment_label := lab }, by simp, ?_, ?_⟩
        · rw [show i + j0 + 0 = i + j0 by omega]
          exact List.getElem?_eq_getElem h0s
        · rw [show i + j0 + 0 = i + j0 by omega]
          exact List.getElem?_eq_getElem h0h
      | succ k =>
        rcases hidx k (by simp at hk; omega) with ⟨rec, h1, h2, h3⟩
        refine ⟨rec, by simpa using h1, ?_, ?_⟩
        · rw [show i + j0 + (k + 1) = i + (j0 + 1) + k by omega]
          exact h2
        · rw [show i + j0 + (k + 1) = i + (j0 + 1) + k by omega]
          exact h3

theorem enrichGo_spec (classify : List JValue → Except PyErr (List Sentiment))
    (bs : Nat) (headlines symbols : List JValue)
    (hbs : 0 < bs) (hlen : symbols.length = headlines.length)
    (hcls : ∀ ts, ∃ ls, classify ts = .ok ls ∧ ls.length = ts.length) :
    ∀ (fuel i : Nat), headlines.length < i + fuel →
      ∃ out, enrichGo classify bs headlines symbols fuel i = .ok out
        ∧ out.length = headlines.length - i
        ∧ ∀ k, k < headlines.length - i →
            ∃ rec, out[k]? = some rec
              ∧ symbols[i + k]? = some rec.symbol
              ∧ headlines[i + k]? = some rec.headline := by
  intro fuel
  induction fuel with
  | zero =>
    intro i hf
    exact ⟨[], rfl, by simp; omega, fun k hk => absurd hk (by omega)⟩
  | succ fuel ih =>
    intro i hf
    by_cases hi : i < headlines.length
    case neg =>
      refine ⟨[], ?_, by simp; omega, fun k hk => absurd hk (by omega)⟩
      simp [enrichGo, hi]
    case pos =>
      rcases hcls ((headlines.drop i).take bs) with ⟨ls, hcl, hlsl⟩
      have hlsl2 : ls.length = min bs (headlines.length - i) := by
        rw [hlsl]; simp
      rcases buildRecs_enumFrom symbols headlines hlen ls 0 i (fun j hj => by
        rw [hlsl2] at hj
        omega) with ⟨recs, hrecs, hreclen, hrecidx⟩
      rcases ih (i + bs) (by omega) with ⟨rest, hrest, hrestlen, hrestidx⟩
      have henum : List.enum ls = List.enumFrom 0 ls := rfl
      refine ⟨recs ++ rest, ?_, ?_, ?_⟩
      · simp only [enrichGo, if_pos hi, hcl, henum, hrecs, hrest]
      · rw [List.length_append, hreclen, hrestlen, hlsl2]
        omega
      · intro k hk
        by_cases hk2 : k < recs.length
        · rcases hrecidx k (by omega) with ⟨rec, h1, h2, h3⟩
          refine ⟨rec, ?_, ?_, ?_⟩
          · rw [List.getElem?_append, if_pos hk2]
            exact h1
          · rw [show i + k = i + 0 + k by omega]
            exact h2
          · rw [show i + k = i + 0 + k by omega]
            exact h3
        · have hmin : recs.length = bs := by
            rw [hreclen, hlsl2]
            omega
          rcases hrestidx (k - recs.length) (by omega) with ⟨rec, h1, h2, h3⟩
          refine ⟨rec, ?_, ?_, ?_⟩
          · rw [List.getElem?_append, if_neg hk2]
            exact h1
          · rw [show i + k = i + bs + (k - recs.length) by omega]
            exact h2
          · rw [show i + k = i + bs + (k - recs.length) by omega]
            exact h3

theorem getHeadlines_length : ∀ (records : List JValue) (hs : List JValue),
    getHeadlines records = .ok hs → hs.length = records.length := by
  intro records
  induction records with
  | nil =>
    intro hs h
    injection h with h
    subst h
    rfl
  | cons r rs ih =>
    intro hs h
    unfold getHeadlines at h
    split at h
    · cases h
    · split at h
      · cases h
      · rename_i hs0 _ hs1 hrec
        injection h with h
        subst h
        simp [ih _ hrec]

theorem getSymbols_length : ∀ (records : List JValue) (ss : List JValue),
    getSymbols records = .ok ss → ss.length = records.length := by
  intro records
  induction records with
  | nil =>
    intro ss h
    injection h with h
    subst h
    rfl
  | cons r rs ih =>
    intro ss h
    unfold getSymbols at h
    split at h
    · cases h
    · split at h
      · cases h
      · rename_i ss0 _ ss1 hrec
        injection h with h
        subst h
        simp [ih _ hrec]

/-- C5: whenever the scoring call returns one classification per input text,
the batching loop of `process_job` produces exactly one enriched record per
parsed record, and the `k`-th enriched record carries the `k`-th symbol and
the `k`-th text, for every input length and every positive batch size; the
text and symbol comprehensions themselves produce one entry per parsed
record, in order. -/
theorem c5_classification_length_order_preserved
    (classify : List JValue → Except PyErr (List Sentiment)) (bs : Nat)
    (headlines symbols : List JValue)
    (hbs : 0 < bs)
    (hlen : symbols.length = headlines.length)
    (hcls : ∀ ts, ∃ ls, classify ts = .ok ls ∧ ls.length = ts.length) :
    (∃ out, enrichAll classify bs headlines symbols = .ok out
      ∧ out.length = headlines.length
      ∧ ∀ k, k < headlines.length →
          ∃ rec, out[k]? = some rec
            ∧ symbols[k]? = some rec.symbol
            ∧ headlines[k]? = some rec.headline)
    ∧ (∀ (records hs : List JValue), getHeadlines records = .ok hs →
        hs.length = records.length)
    ∧ (∀ (records ss : List JValue), getSymbols records = .ok ss →
        ss.length = records.length) := by
  refine ⟨?_, getHeadlines_length, getSymbols_length⟩
  rcases enrichGo_spec classify bs headlines symbols hbs hlen hcls
    (headlines.length + 1) 0 (by omega) with ⟨out, hout, hlen2, hidx⟩
  refine ⟨out, ?_, by omega, ?_⟩
  · unfold enrichAll
    rw [if_neg (by omega)]
    exact hout
  · intro k hk
    rcases hidx k (by omega) with ⟨rec, h1, h2, h3⟩
    exact ⟨rec, h1, by simpa using h2, by simpa using h3⟩

/-- Witness for C5: three records, batch size two. -/
theorem c5_classification_length_order_preserved_witness :
    ∃ out, enrichAll (fun ts => .ok (ts.map (fun _ => (⟨"neutral", []⟩ : Sentiment)))) 2
        [.str "a", .str "b", .str "c"] [.str "A", .str "B", .str "C"] = .ok out
      ∧ out.length = ([.str "a", .str "b", .str "c"] : List JValue).length
      ∧ ∀ k, k < ([.str "a", .str "b", .str "c"] : List JValue).length →
          ∃ rec, out[k]? = some rec
            ∧ ([.str "A", .str "B", .str "C"] : List JValue)[k]? = some rec.symbol
            ∧ ([.str "a", .str "b", .str "c"] : List JValue)[k]? = some rec.headline :=
  (c5_classification_length_order_preserved _ 2 _ _ (by omega) (by rfl)
    (fun ts => ⟨ts.map (fun _ => (⟨"neutral", []⟩ : Sentiment)), rfl, by simp⟩)).1

end NlpTrading
